import Mathlib

/-!
Verification of the multidown segmented HTTP downloader (main.go).

The development shallowly embeds the program state and operations:

* machine integers (Go int64) are modelled as Lean Int; the one place where
  int64 overflow is reachable, the segment-count computation, wraps its sum
  and quotient into the int64 range with an explicit twos-complement
  wrap-around (wrap64), exactly as Go does;
* Go integer division on int64 truncates toward zero, which is Int.tdiv;
* the on-disk progress file is a list of bytes (List Nat); WriteAt beyond the
  end of the file zero-fills, as on a POSIX sparse file;
* the encoding/gob serialization of the two-field int64 header is modelled by
  an executable stand-in encoder/decoder pair with the properties the program
  relies on: deterministic, self-delimiting, shorter than the 256-byte base
  offset, rejecting values outside the int64 range, and failing on malformed
  or truncated input;
* the network is an oracle: each fetch attempt is a record carrying the
  transport-error flag, the status code and the list of chunk sizes delivered
  by successive Body.Read calls before EOF;
* a worker (download_segments) is a function from its instruction list and
  the attempt oracle to the list of observable events it performs: output
  file writes, progress file writes, and the fatal exit;
* Go runtime panics that the code can actually reach (integer division by
  zero, make with a negative size) are modelled by explicit panic results.
-/

namespace Multidown

/-- Constant from main.go: hard cap on the declared segment count. -/
def maxSegments : Int := 50000

/-- Constant from main.go: byte value marking a finished segment. -/
def finishedSegment : Nat := 0x59

/-- Constant from main.go: base offset of the segment bitmap in the progress file. -/
def baseOffset : Nat := 256

/-- Go truncated division on int64, as used by findSegmentCount. -/
def goDiv (a b : Int) : Int := a.tdiv b

/-- Twos-complement wrap-around into the int64 range, the effect of Go
int64 overflow. -/
def wrap64 (n : Int) : Int := (n + 2 ^ 63) % 2 ^ 64 - 2 ^ 63

/-- findSegmentCount from main.go: (length + segmentSize - 1) / segmentSize
over int64. The sum wraps on overflow; the quotient of the most negative
value by -1, the only overflowing int64 division, wraps back to the most
negative value, as the Go specification defines. -/
def findSegmentCount (length segmentSize : Int) : Int :=
  wrap64 (goDiv (wrap64 (length + segmentSize - 1)) segmentSize)

theorem wrap64_eq_self (n : Int) (h1 : -(2 ^ 63) ≤ n) (h2 : n < 2 ^ 63) :
    wrap64 n = n := by
  unfold wrap64
  omega

/-- The Download work item of main.go. The segmentNum loop variable is always
nonnegative in the program, so it is carried as a Nat. -/
structure Download where
  position : Int
  size : Int
  segmentNum : Nat
deriving DecidableEq, Repr

/-- The ProgressInfo record of main.go: header fields plus the decoded bitmap. -/
structure ProgressInfo where
  Length : Int
  SegmentSize : Int
  segments : List Bool
deriving DecidableEq, Repr

/-! ## Byte-level model of the progress file -/

/-- Read one byte at an offset; reads at or past end-of-file yield 0, which the
bitmap loop of readProgressInfo treats the same as an explicit pending byte. -/
def fileGet (f : List Nat) (off : Nat) : Nat := f.getD off 0

/-- WriteAt of a single byte: in-place if inside the file, otherwise the file
is zero-extended up to the offset, as the OS does for a sparse write. -/
def writeByteAt (f : List Nat) (off : Nat) (b : Nat) : List Nat :=
  if off < f.length then f.set off b
  else f ++ List.replicate (off - f.length) 0 ++ [b]

/-- The 4-byte magic literal MULD. -/
def magic : List Nat := [0x4D, 0x55, 0x4C, 0x44]

/-- Modelled gob encoding of one int64: a sign byte followed by the eight
little-endian base-256 digits of the absolute value. -/
def encInt64 (n : Int) : List Nat :=
  [if n < 0 then 1 else 0,
   n.natAbs % 256,
   n.natAbs / 256 % 256,
   n.natAbs / 65536 % 256,
   n.natAbs / 16777216 % 256,
   n.natAbs / 4294967296 % 256,
   n.natAbs / 1099511627776 % 256,
   n.natAbs / 281474976710656 % 256,
   n.natAbs / 72057594037927936 % 256]

/-- Modelled gob decoding of one int64, returning the remaining bytes. It
fails on truncated input, on an invalid sign byte, and on a magnitude outside
the int64 range (encoding/gob reports an overflow error in that case). -/
def decInt64 : List Nat → Option (Int × List Nat)
  | s :: b0 :: b1 :: b2 :: b3 :: b4 :: b5 :: b6 :: b7 :: rest =>
    let m : Nat := b0 + 256 * (b1 + 256 * (b2 + 256 * (b3 + 256 * (b4 +
      256 * (b5 + 256 * (b6 + 256 * b7))))))
    if s = 0 then
      if m < 2 ^ 63 then some ((m : Int), rest) else none
    else if s = 1 then
      if m ≤ 2 ^ 63 then some (-(m : Int), rest) else none
    else none
  | _ => none

/-- The serialized header {Length, SegmentSize} written after the magic. -/
def gobEncodeHeader (length segmentSize : Int) : List Nat :=
  encInt64 length ++ encInt64 segmentSize

/-- Decode the header; trailing bytes (the bitmap region) are left unread,
like the gob decoder consuming exactly one value from the stream. -/
def gobDecodeHeader (bs : List Nat) : Option (Int × Int) :=
  match decInt64 bs with
  | none => none
  | some (length, rest) =>
    match decInt64 rest with
    | none => none
    | some (segmentSize, _) => some (length, segmentSize)

/-- beginProgressFile from main.go: create the file holding the magic followed
by the serialized header. -/
def beginProgressFileBytes (length segmentSize : Int) : List Nat :=
  magic ++ gobEncodeHeader length segmentSize

/-- The single-byte write download_segments performs after finishing segment
segmentNum: progressFile.WriteAt of finishedSegment at baseOffset+segmentNum. -/
def markSegmentBytes (f : List Nat) (segmentNum : Nat) : List Nat :=
  writeByteAt f (baseOffset + segmentNum) finishedSegment

/-- Apply a sequence of segment-done marks to the progress file. -/
def applyMarks (f : List Nat) (marks : List Nat) : List Nat :=
  marks.foldl markSegmentBytes f

/-! ## Round-trip facts about the modelled encoding -/

theorem decInt64_encInt64 (n : Int) (rest : List Nat)
    (h1 : -(2 ^ 63) ≤ n) (h2 : n < 2 ^ 63) :
    decInt64 (encInt64 n ++ rest) = some (n, rest) := by
  have habs : n.natAbs ≤ 2 ^ 63 := by
    rcases le_or_lt 0 n with h | h
    · omega
    · omega
  have hlt : n.natAbs < 18446744073709551616 := by omega
  have hdigits : n.natAbs % 256 + 256 * (n.natAbs / 256 % 256 +
      256 * (n.natAbs / 65536 % 256 + 256 * (n.natAbs / 16777216 % 256 +
      256 * (n.natAbs / 4294967296 % 256 + 256 * (n.natAbs / 1099511627776 % 256 +
      256 * (n.natAbs / 281474976710656 % 256 +
        256 * (n.natAbs / 72057594037927936 % 256))))))) = n.natAbs := by
    omega
  rcases le_or_lt 0 n with hpos | hneg
  · have hs : ¬ n < 0 := by omega
    have habs2 : n.natAbs < 2 ^ 63 := by omega
    simp only [encInt64, if_neg hs, List.cons_append, List.nil_append, decInt64]
    rw [hdigits]
    have : ((n.natAbs : Int)) = n := Int.natAbs_of_nonneg hpos
    rw [this]
    have hlt63 : n.natAbs < 9223372036854775808 := by omega
    simp [hlt63]
  · have hs : n < 0 := hneg
    simp only [encInt64, if_pos hs, List.cons_append, List.nil_append, decInt64]
    rw [hdigits]
    have hcast : -((n.natAbs : Int)) = n := by omega
    rw [hcast]
    have hle63 : n.natAbs ≤ 9223372036854775808 := by omega
    simp [hle63]

theorem gobDecodeHeader_encode (length segmentSize : Int) (rest : List Nat)
    (hL1 : -(2 ^ 63) ≤ length) (hL2 : length < 2 ^ 63)
    (hS1 : -(2 ^ 63) ≤ segmentSize) (hS2 : segmentSize < 2 ^ 63) :
    gobDecodeHeader (gobEncodeHeader length segmentSize ++ rest) =
      some (length, segmentSize) := by
  unfold gobDecodeHeader gobEncodeHeader
  rw [List.append_assoc, decInt64_encInt64 length _ hL1 hL2]
  simp only []
  rw [decInt64_encInt64 segmentSize rest hS1 hS2]

theorem beginProgressFileBytes_length (length segmentSize : Int) :
    (beginProgressFileBytes length segmentSize).length = 22 := by
  simp [beginProgressFileBytes, magic, gobEncodeHeader, encInt64]

/-! ## readProgressInfo, setupProgressFile, and the supervisor -/

/-- Result of readProgressInfo. The panic constructor records a Go runtime
panic: findSegmentCount divides by the decoded SegmentSize (a zero value
panics), and make allocates the bitmap with the computed count (a negative
value panics). The cap check sits between the two, exactly as in the source. -/
inductive ReadResult where
  | panic : ReadResult
  | err : ReadResult
  | ok : ProgressInfo → ReadResult
deriving DecidableEq, Repr

/-- readProgressInfo from main.go over the byte-level file model; the input is
none when the file cannot be opened. The bitmap loop reads from baseOffset one
buffer at a time and stops at end-of-file, leaving the remaining entries
false; that is pointwise equal to testing each byte with fileGet, because
bytes at or past end-of-file read as 0, which is not finishedSegment. -/
def readProgressInfo (file : Option (List Nat)) : ReadResult :=
  match file with
  | none => .err
  | some f =>
    if f.take 4 ≠ magic then .err
    else
      match gobDecodeHeader (f.drop 4) with
      | none => .err
      | some (length, segmentSize) =>
        if segmentSize = 0 then .panic
        else
          let segmentCount := findSegmentCount length segmentSize
          if segmentCount > maxSegments then .err
          else if segmentCount < 0 then .panic
          else .ok ⟨length, segmentSize,
            (List.range segmentCount.toNat).map
              (fun i => fileGet f (baseOffset + i) == finishedSegment)⟩

/-- Result of setupProgressFile: either a Go runtime panic, or the chosen
progress info together with the clean flag it returns. -/
inductive SetupResult where
  | panic : SetupResult
  | ok : ProgressInfo → Bool → SetupResult
deriving DecidableEq, Repr

/-- The freshly initialized state of a clean start: the requested header and
an all-pending bitmap. -/
def freshInfo (length segmentSize : Int) : ProgressInfo :=
  ⟨length, segmentSize, List.replicate (findSegmentCount length segmentSize).toNat false⟩

/-- The clean branch of setupProgressFile: findSegmentCount panics when
segmentSize is zero, and make panics when the count is negative; neither can
happen for the nonnegative probed length and the fixed positive segment size
the program passes. -/
def mkCleanSetup (length segmentSize : Int) : SetupResult :=
  if segmentSize = 0 then .panic
  else if findSegmentCount length segmentSize < 0 then .panic
  else .ok (freshInfo length segmentSize) true

/-- setupProgressFile from main.go: decide clean-vs-resume. The clean
condition is read failure, a totalLength mismatch, or a bitmap length that
disagrees with findSegmentCount of the new length and the stored SegmentSize,
exactly the expression on lines 159-160 of main.go. -/
def setupProgressFile (stored : Option (List Nat)) (length segmentSize : Int)
    (forceClean : Bool) : SetupResult :=
  if forceClean then mkCleanSetup length segmentSize
  else
    match readProgressInfo stored with
    | .panic => .panic
    | .err => mkCleanSetup length segmentSize
    | .ok info =>
      if length ≠ info.Length ∨
          findSegmentCount length info.SegmentSize ≠ (info.segments.length : Int) then
        mkCleanSetup length segmentSize
      else .ok info false

/-- The work item the download loop builds for segment seg (lines 305-317 of
main.go): position seg*SegmentSize, size SegmentSize clipped at Length. -/
def segmentFor (length segmentSize : Int) (seg : Nat) : Download :=
  let pos : Int := (seg : Int) * segmentSize
  { position := pos
  , size := if pos + segmentSize > length then length - pos else segmentSize
  , segmentNum := seg }

/-- The sequence of work items the supervisor enqueues: one per segment whose
bitmap entry is false, in ascending order, skipping finished segments. -/
def planInstructions (info : ProgressInfo) : List Download :=
  (List.range info.segments.length).filterMap fun seg =>
    if info.segments.getD seg false then none
    else some (segmentFor info.Length info.SegmentSize seg)

/-- The full segment plan for a clean start over a given length and segment
size: every segment is pending. -/
def planSegments (length segmentSize : Int) : List Download :=
  planInstructions (freshInfo length segmentSize)

/-- The fixed default segment size the supervisor passes (line 277). -/
def defaultSegmentSize : Int := 1000000

/-- Outcome of the supervisor startup decision in download (lines 269-317):
the already-complete short circuit, a runtime panic from state recovery, or a
run with the truncate flag, the progress info, and the enqueued work items. -/
inductive RunResult where
  | alreadyComplete : RunResult
  | panic : RunResult
  | run : Bool → ProgressInfo → List Download → RunResult
deriving DecidableEq, Repr

/-- The download startup sequence of main.go: outFileSize is the stat result
of the output file (none when stat fails), stored the progress file bytes
(none when absent), length the probed remote length. The short circuit fires
when the output file exists with exactly the remote length and no progress
file exists; otherwise setupProgressFile runs with forceClean set exactly when
the output file stat failed, the output file is truncated exactly when the
clean flag is returned, and one work item per pending segment is enqueued. -/
def downloadModel (outFileSize : Option Int) (stored : Option (List Nat))
    (length : Int) : RunResult :=
  if outFileSize = some length ∧ stored = none then .alreadyComplete
  else
    match setupProgressFile stored length defaultSegmentSize outFileSize.isNone with
    | .panic => .panic
    | .ok info clean => .run clean info (planInstructions info)

/-! ## The fetch worker -/

/-- One fetch attempt as seen by download_segments: whether client.Do returned
an error, the response status code, and the sizes of the byte chunks the
successive Body.Read calls deliver before the stream ends. -/
structure Attempt where
  transportErr : Bool
  statusCode : Int
  chunks : List Nat
deriving DecidableEq, Repr

/-- The observable events a worker performs: a WriteAt of len bytes at an
offset of the output file, a one-byte WriteAt of val into the progress file,
and the fatal os.Exit path. -/
inductive Event where
  | write : Int → Nat → Event
  | progressWrite : Int → Nat → Event
  | fatalExit : Event
deriving DecidableEq, Repr

/-- The failure test on line 65 of main.go: a transport error, or a status
code that is neither 206 nor 200. -/
def attemptFailed (transportErr : Bool) (statusCode : Int) : Bool :=
  transportErr || (statusCode != 206 && statusCode != 200)

/-- The inner read loop of download_segments (lines 79-89): while fewer than
size bytes are read, take the next chunk, write it at position+read, and add
it to the running count; an exhausted chunk list is EOF. Returns the write
events and the final read count. -/
def readChunks (pos size : Int) : List Nat → Int → List Event × Int
  | [], read => ([], read)
  | c :: cs, read =>
    if read < size then
      let rest := readChunks pos size cs (read + c)
      (Event.write (pos + read) c :: rest.1, rest.2)
    else ([], read)

/-- download_segments from main.go as a function from the instruction list
and the attempt oracle to the event trace. The fin flag mirrors the finished
variable: when set, the worker takes the next instruction and stops on a
zero-size poison item. A failed attempt increments errorCount and exits
fatally past three consecutive failures; a good response resets errorCount,
streams chunks, and either marks the segment done when all declared bytes
arrived or shrinks the work item to the unread remainder. An exhausted oracle
or instruction list ends the observable trace. -/
def runWorker (insts : List Download) (outs : List Attempt) (fin : Bool)
    (down : Download) (errorCount : Int) : List Event :=
  match fin, insts, outs with
  | true, [], _ => []
  | true, d :: rest, outs =>
    if d.size = 0 then []
    else runWorker rest outs false d errorCount
  | false, _, [] => []
  | false, insts, a :: as =>
    if attemptFailed a.transportErr a.statusCode then
      if errorCount + 1 > 3 then [Event.fatalExit]
      else runWorker insts as false down (errorCount + 1)
    else
      if down.size ≤ (readChunks down.position down.size a.chunks 0).2 then
        (readChunks down.position down.size a.chunks 0).1 ++
          Event.progressWrite ((baseOffset : Int) + (down.segmentNum : Int))
            finishedSegment :: runWorker insts as true down 0
      else
        (readChunks down.position down.size a.chunks 0).1 ++ runWorker insts as false
          ⟨down.position + (readChunks down.position down.size a.chunks 0).2,
           down.size - (readChunks down.position down.size a.chunks 0).2,
           down.segmentNum⟩ 0
termination_by (outs.length, insts.length)

/-! ## Helper lemmas about the segment plan -/

theorem findSegmentCount_eq_natDiv (L S : Int) (hL : 0 ≤ L) (hS : 0 < S)
    (hover : L + S ≤ 2 ^ 63) :
    findSegmentCount L S = ((L.toNat + S.toNat - 1) / S.toNat : Nat) := by
  unfold findSegmentCount goDiv
  have hLcast : ((L.toNat : Int)) = L := Int.toNat_of_nonneg hL
  have hScast : ((S.toNat : Int)) = S := Int.toNat_of_nonneg (le_of_lt hS)
  have hs1 : 1 ≤ S.toNat := by omega
  have hnum : L + S - 1 = ((L.toNat + S.toNat - 1 : Nat) : Int) := by
    push_cast [Nat.cast_sub (by omega : 1 ≤ L.toNat + S.toNat)]
    omega
  have hw1 : wrap64 (L + S - 1) = L + S - 1 :=
    wrap64_eq_self _ (by omega) (by omega)
  have hcore : (L + S - 1).tdiv S = ((L.toNat + S.toNat - 1) / S.toNat : Nat) := by
    rw [Int.ofNat_tdiv, hScast, ← hnum]
  rw [hw1, hcore]
  have hd_le : (L.toNat + S.toNat - 1) / S.toNat ≤ L.toNat + S.toNat - 1 :=
    Nat.div_le_self _ _
  have hub : L.toNat + S.toNat ≤ 2 ^ 63 := by omega
  have hdn : (L.toNat + S.toNat - 1) / S.toNat < 2 ^ 63 := by omega
  exact wrap64_eq_self _
    (le_trans (by norm_num) (Int.ofNat_nonneg _))
    (by exact_mod_cast hdn)

theorem findSegmentCount_nonneg (L S : Int) (hL : 0 ≤ L) (hS : 0 < S)
    (hover : L + S ≤ 2 ^ 63) :
    0 ≤ findSegmentCount L S := by
  rw [findSegmentCount_eq_natDiv L S hL hS hover]
  exact Int.ofNat_nonneg _

theorem segmentCount_le_iff (L S : Int) (hL : 0 ≤ L) (hS : 0 < S)
    (hover : L + S ≤ 2 ^ 63) (k : Nat) :
    (findSegmentCount L S).toNat ≤ k ↔ L ≤ (k : Int) * S := by
  rw [findSegmentCount_eq_natDiv L S hL hS hover, Int.toNat_ofNat]
  have hs : 0 < S.toNat := by omega
  rw [Nat.div_le_iff_le_mul_add_pred hs]
  have hLcast : ((L.toNat : Int)) = L := Int.toNat_of_nonneg hL
  have hScast : ((S.toNat : Int)) = S := Int.toNat_of_nonneg (le_of_lt hS)
  constructor
  · intro h
    have : L.toNat ≤ S.toNat * k := by omega
    calc L = ((L.toNat : Int)) := hLcast.symm
    _ ≤ ((S.toNat * k : Nat) : Int) := by exact_mod_cast this
    _ = (k : Int) * S := by push_cast [hScast]; ring
  · intro h
    have : ((L.toNat : Int)) ≤ ((S.toNat * k : Nat) : Int) := by
      rw [hLcast]
      calc L ≤ (k : Int) * S := h
      _ = ((S.toNat * k : Nat) : Int) := by push_cast [hScast]; ring
    have := Int.ofNat_le.mp this
    omega

theorem segmentFor_eq (L S : Int) (i : Nat) :
    segmentFor L S i =
      ⟨(i : Int) * S, min (((i : Int) + 1) * S) L - (i : Int) * S, i⟩ := by
  unfold segmentFor
  simp only
  congr 1
  split_ifs with h
  · rw [min_eq_right (by nlinarith [h] : L ≤ ((i : Int) + 1) * S)]
  · rw [min_eq_left (by nlinarith [h] : ((i : Int) + 1) * S ≤ L)]
    ring

theorem getD_replicate_false (n i : Nat) :
    (List.replicate n false).getD i false = false := by
  rcases lt_or_ge i n with h | h
  · simp [List.getD_eq_getElem?_getD, List.getElem?_replicate, h]
  · simp [List.getD_eq_getElem?_getD, List.getElem?_replicate,
      Nat.not_lt.mpr h]

theorem planSegments_eq_map (L S : Int) :
    planSegments L S =
      (List.range (findSegmentCount L S).toNat).map (segmentFor L S) := by
  unfold planSegments planInstructions freshInfo
  simp only [List.length_replicate]
  have h : ∀ seg,
      ((List.replicate (findSegmentCount L S).toNat false).getD seg false) = false :=
    fun seg => getD_replicate_false _ _
  calc (List.range (findSegmentCount L S).toNat).filterMap
        (fun seg => if (List.replicate (findSegmentCount L S).toNat false).getD seg false
          then none else some (segmentFor L S seg))
      = (List.range (findSegmentCount L S).toNat).filterMap
        (fun seg => some (segmentFor L S seg)) := by
        apply List.filterMap_congr
        intro seg _
        rw [h seg]
        simp
    _ = (List.range (findSegmentCount L S).toNat).map (segmentFor L S) := by
        rw [← List.filterMap_eq_map]
        rfl

theorem planSegments_getD (L S : Int) (i : Nat)
    (h : i < (findSegmentCount L S).toNat) :
    (planSegments L S).getD i ⟨0, 0, 0⟩ = segmentFor L S i := by
  rw [planSegments_eq_map]
  simp [List.getD_eq_getElem?_getD, List.getElem?_map, List.getElem?_range, h]

theorem mkCleanSetup_ok (L S : Int) (hL : 0 ≤ L) (hS : 0 < S)
    (hover : L + S ≤ 2 ^ 63) :
    mkCleanSetup L S = SetupResult.ok (freshInfo L S) true := by
  unfold mkCleanSetup
  rw [if_neg (by omega : ¬ S = 0),
    if_neg (not_lt.mpr (findSegmentCount_nonneg L S hL hS hover))]

/-- Unfolded form of readProgressInfo on a present file, for rewriting. -/
theorem readProgressInfo_some (f : List Nat) :
    readProgressInfo (some f) =
      (if f.take 4 ≠ magic then ReadResult.err
       else
         match gobDecodeHeader (f.drop 4) with
         | none => ReadResult.err
         | some (length, segmentSize) =>
           if segmentSize = 0 then ReadResult.panic
           else
             let segmentCount := findSegmentCount length segmentSize
             if segmentCount > maxSegments then ReadResult.err
             else if segmentCount < 0 then ReadResult.panic
             else ReadResult.ok ⟨length, segmentSize,
               (List.range segmentCount.toNat).map
                 (fun i => fileGet f (baseOffset + i) == finishedSegment)⟩) := rfl

/-! ## Claim C1: the segment plan tiles the file -/

/-- C1 (amended): for every totalLength ≥ 0 and segmentSize > 0 with
totalLength + segmentSize ≤ 2^63, so that the int64 segment-count arithmetic
does not overflow, the plan the supervisor enqueues on a clean start has
exactly ceil(totalLength/segmentSize) segments (the count is characterized as
the least k with totalLength ≤ k*segmentSize); segment i starts at offset
i*segmentSize and has length min((i+1)*segmentSize, totalLength) -
i*segmentSize; consecutive segments are contiguous, the first starts at 0 and
the last ends at totalLength, so the segments tile the interval with no gaps
and no overlaps. Past the overflow bound the count wraps negative and the
program panics at make before enqueuing anything. -/
theorem c1_segment_plan_tiles (L S : Int) (hL : 0 ≤ L) (hS : 0 < S)
    (hover : L + S ≤ 2 ^ 63) :
    (planSegments L S).length = (findSegmentCount L S).toNat
    ∧ (∀ k : Nat, (findSegmentCount L S).toNat ≤ k ↔ L ≤ (k : Int) * S)
    ∧ (∀ i : Nat, i < (findSegmentCount L S).toNat →
        (planSegments L S).getD i ⟨0, 0, 0⟩ =
          ⟨(i : Int) * S, min (((i : Int) + 1) * S) L - (i : Int) * S, i⟩)
    ∧ (∀ i : Nat, i + 1 < (findSegmentCount L S).toNat →
        ((planSegments L S).getD (i + 1) ⟨0, 0, 0⟩).position =
          ((planSegments L S).getD i ⟨0, 0, 0⟩).position +
            ((planSegments L S).getD i ⟨0, 0, 0⟩).size)
    ∧ (0 < (findSegmentCount L S).toNat →
        ((planSegments L S).getD 0 ⟨0, 0, 0⟩).position = 0)
    ∧ (0 < (findSegmentCount L S).toNat →
        ((planSegments L S).getD ((findSegmentCount L S).toNat - 1)
            ⟨0, 0, 0⟩).position +
          ((planSegments L S).getD ((findSegmentCount L S).toNat - 1)
            ⟨0, 0, 0⟩).size = L) := by
  have hgal := fun k => segmentCount_le_iff L S hL hS hover k
  refine ⟨?_, hgal, ?_, ?_, ?_, ?_⟩
  · rw [planSegments_eq_map]
    simp
  · intro i hi
    rw [planSegments_getD L S i hi, segmentFor_eq]
  · intro i hi
    have hi0 : i < (findSegmentCount L S).toNat := by omega
    rw [planSegments_getD L S (i + 1) hi, planSegments_getD L S i hi0,
      segmentFor_eq, segmentFor_eq]
    simp only
    have hlt : ((i + 1 : Nat) : Int) * S < L := by
      by_contra hcon
      have hle : L ≤ ((i + 1 : Nat) : Int) * S := not_lt.mp hcon
      have := (hgal (i + 1)).mpr hle
      omega
    push_cast at hlt
    rw [min_eq_left (le_of_lt hlt)]
    push_cast
    ring
  · intro hc
    rw [planSegments_getD L S 0 hc, segmentFor_eq]
    simp
  · intro hc
    have hj : (findSegmentCount L S).toNat - 1 < (findSegmentCount L S).toNat := by
      omega
    rw [planSegments_getD L S _ hj, segmentFor_eq]
    simp only
    have hle : L ≤ ((findSegmentCount L S).toNat : Int) * S :=
      (hgal (findSegmentCount L S).toNat).mp (le_refl _)
    have hcast : (((findSegmentCount L S).toNat - 1 : Nat) : Int) + 1 =
        ((findSegmentCount L S).toNat : Int) := by omega
    rw [hcast, min_eq_right hle]
    ring

/-- C1 counterexample: at totalLength 2^63 - 1 (a Content-Length Go can
report) with the fixed segment size, the int64 sum wraps, the computed count
is negative, the clean-start path panics at make, and the model plan is
empty, not a ceil-many tiling of [0, totalLength): were the plan a tiling,
totalLength ≤ length*segmentSize would hold. -/
theorem c1_segment_plan_tiles_cex :
    findSegmentCount (2 ^ 63 - 1) 1000000 < 0
    ∧ mkCleanSetup (2 ^ 63 - 1) 1000000 = SetupResult.panic
    ∧ (planSegments (2 ^ 63 - 1) 1000000).length = 0
    ∧ ¬ ((2 ^ 63 - 1 : Int) ≤
        ((planSegments (2 ^ 63 - 1) 1000000).length : Int) * 1000000) := by
  refine ⟨by decide, by decide, by decide, ?_⟩
  rw [show (planSegments (2 ^ 63 - 1) 1000000).length = 0 from by decide]
  decide

/-- C1 witness: the example scenario of the spec, totalLength 2500000 with
segmentSize 1000000 gives a three-segment plan. -/
theorem c1_segment_plan_tiles_witness : (planSegments 2500000 1000000).length = 3 := by
  have h := c1_segment_plan_tiles 2500000 1000000 (by decide) (by decide) (by decide)
  rw [h.1]
  decide

/-! ## Claims C9 and C10: the startup decisions of the supervisor -/

/-- C9: when the output file exists with exactly the probed remote length and
no resume-state file exists, download returns before opening anything, so no
ranged fetch is issued, nothing is written, and the run exits successfully. -/
theorem c9_already_complete (L : Int) :
    downloadModel (some L) none L = RunResult.alreadyComplete := by
  unfold downloadModel
  simp

/-- C10 (amended): when the stat of the output file fails, download passes
forceClean = true to setupProgressFile, so any existing resume-state file is
ignored, a fresh all-pending state is used, the output file is truncated
(clean flag true), and every segment of the plan is enqueued - provided the
probed length stays below 2^63 - segmentSize; at larger lengths the int64
segment-count computation wraps negative and the clean path panics at make
instead of producing a run. -/
theorem c10_missing_output_forces_clean (stored : Option (List Nat)) (L : Int)
    (hL : 0 ≤ L) (hover : L + defaultSegmentSize ≤ 2 ^ 63) :
    downloadModel none stored L =
      RunResult.run true (freshInfo L defaultSegmentSize)
        ((List.range (findSegmentCount L defaultSegmentSize).toNat).map
          (segmentFor L defaultSegmentSize)) := by
  unfold downloadModel
  rw [if_neg (by simp)]
  unfold setupProgressFile
  rw [if_pos (by simp)]
  rw [mkCleanSetup_ok L defaultSegmentSize hL (by decide) hover]
  have hplan : planInstructions (freshInfo L defaultSegmentSize) =
      (List.range (findSegmentCount L defaultSegmentSize).toNat).map
        (segmentFor L defaultSegmentSize) := planSegments_eq_map L defaultSegmentSize
  exact congrArg (RunResult.run true (freshInfo L defaultSegmentSize)) hplan

/-- C10 counterexample: with the output file missing and the probed length at
the int64 maximum, the clean path wraps the segment count negative and panics
at make instead of re-downloading anything. -/
theorem c10_missing_output_forces_clean_cex :
    downloadModel none none (2 ^ 63 - 1) = RunResult.panic := by decide

/-- C10 witness: with the output file missing and a valid stored state for a
different length, the run is still a full clean start. -/
theorem c10_missing_output_forces_clean_witness :
    downloadModel none (some (beginProgressFileBytes 7 3)) 5 =
      RunResult.run true (freshInfo 5 defaultSegmentSize)
        ((List.range (findSegmentCount 5 defaultSegmentSize).toNat).map
          (segmentFor 5 defaultSegmentSize)) :=
  c10_missing_output_forces_clean (some (beginProgressFileBytes 7 3)) 5
    (by decide) (by decide)

/-! ## Claim C8: a stored length mismatch forces a full clean start -/

/-- C8 (amended): when a stored resume state reads back successfully but its
totalLength differs from the probed remote length, the prior state is
discarded: the run uses a fresh all-pending state, the truncate flag is set
before any worker write, and one work item per segment of the full plan is
enqueued - provided the probed length stays below 2^63 - segmentSize; at
larger lengths the int64 segment-count computation wraps negative and the
clean path panics at make instead of producing the run. -/
theorem c8_length_mismatch_clean_start (f : List Nat) (info0 : ProgressInfo)
    (sz L : Int)
    (hread : readProgressInfo (some f) = ReadResult.ok info0)
    (hne : L ≠ info0.Length) (hL : 0 ≤ L)
    (hover : L + defaultSegmentSize ≤ 2 ^ 63) :
    downloadModel (some sz) (some f) L =
      RunResult.run true (freshInfo L defaultSegmentSize)
        ((List.range (findSegmentCount L defaultSegmentSize).toNat).map
          (segmentFor L defaultSegmentSize)) := by
  unfold downloadModel
  rw [if_neg (by simp)]
  unfold setupProgressFile
  rw [if_neg (by simp)]
  rw [hread]
  simp only
  rw [if_pos (Or.inl hne)]
  rw [mkCleanSetup_ok L defaultSegmentSize hL (by decide) hover]
  have hplan : planInstructions (freshInfo L defaultSegmentSize) =
      (List.range (findSegmentCount L defaultSegmentSize).toNat).map
        (segmentFor L defaultSegmentSize) := planSegments_eq_map L defaultSegmentSize
  exact congrArg (RunResult.run true (freshInfo L defaultSegmentSize)) hplan

/-- C8 counterexample: a stored state for length 7 against a probed length at
the int64 maximum: the length mismatch selects the clean path, but the wrapped
segment count is negative and the run panics at make instead of truncating and
enqueuing the plan. -/
theorem c8_length_mismatch_clean_start_cex :
    downloadModel (some 5) (some (beginProgressFileBytes 7 3)) (2 ^ 63 - 1) =
      RunResult.panic := by decide

/-- C8 witness: a stored state for length 7 against a probed length of 9. -/
theorem c8_length_mismatch_clean_start_witness :
    downloadModel (some 5) (some (beginProgressFileBytes 7 3)) 9 =
      RunResult.run true (freshInfo 9 defaultSegmentSize)
        ((List.range (findSegmentCount 9 defaultSegmentSize).toNat).map
          (segmentFor 9 defaultSegmentSize)) :=
  c8_length_mismatch_clean_start (beginProgressFileBytes 7 3)
    ⟨7, 3, [false, false, false]⟩ 5 9 (by decide) (by decide) (by decide)
    (by decide)

/-! ## Claim C4: the clean-start decision of setupProgressFile -/

/-- C4 (amended): provided reading the stored state does not hit a runtime
panic - which a deserialized header with SegmentSize = 0 (division by zero)
or with a negative segment count (make with a negative size) does cause,
including counts driven negative by int64 wrap-around of the header sum - and
provided the expected length itself stays below the overflow bound,
setupProgressFile returns the freshly initialized all-pending state with the
clean flag exactly when forceClean is set, or the stored state fails to read
(missing file, bad magic, deserialization failure, or the over-cap count,
which all surface as a read error, never a hard failure), or the stored
totalLength differs from the expected length, or the stored bitmap length
disagrees with findSegmentCount; otherwise it returns the recovered state
with the clean flag unset. The readProgressInfo model computes its count with
the same int64 wrap-around as Go, so the no-panic proviso excludes exactly
the stored headers on which the program crashes. The third conjunct shows the
over-cap case indeed surfaces as a read error. -/
theorem c4_setup_clean_iff (stored : Option (List Nat)) (L S : Int) (force : Bool)
    (hnp : readProgressInfo stored ≠ ReadResult.panic)
    (hL : 0 ≤ L) (hS : 0 < S) (hover : L + S ≤ 2 ^ 63) :
    (setupProgressFile stored L S force = SetupResult.ok (freshInfo L S) true ↔
      (force = true ∨ readProgressInfo stored = ReadResult.err ∨
        ∃ info, readProgressInfo stored = ReadResult.ok info ∧
          (L ≠ info.Length ∨
            findSegmentCount L info.SegmentSize ≠ (info.segments.length : Int))))
    ∧ (∀ info, setupProgressFile stored L S force = SetupResult.ok info false ↔
        (force = false ∧ readProgressInfo stored = ReadResult.ok info ∧
          L = info.Length ∧
          findSegmentCount L info.SegmentSize = (info.segments.length : Int)))
    ∧ (∀ (g : List Nat) (length0 segmentSize0 : Int), g.take 4 = magic →
        gobDecodeHeader (g.drop 4) = some (length0, segmentSize0) →
        segmentSize0 ≠ 0 → findSegmentCount length0 segmentSize0 > maxSegments →
        readProgressInfo (some g) = ReadResult.err) := by
  have hclean := mkCleanSetup_ok L S hL hS hover
  refine ⟨?_, ?_, ?_⟩
  · unfold setupProgressFile
    cases force with
    | true =>
      rw [if_pos rfl, hclean]
      simp
    | false =>
      rw [if_neg (by simp)]
      cases hread : readProgressInfo stored with
      | panic => exact absurd hread hnp
      | err =>
        rw [hclean]
        simp
      | ok info =>
        simp only
        by_cases hcond : L ≠ info.Length ∨
            findSegmentCount L info.SegmentSize ≠ (info.segments.length : Int)
        · rw [if_pos hcond, hclean]
          simp only [true_iff]
          exact Or.inr (Or.inr ⟨info, rfl, hcond⟩)
        · rw [if_neg hcond]
          constructor
          · intro hcontra
            cases hcontra
          · rintro (h | h | ⟨info2, hinfo2, hcond2⟩)
            · cases h
            · cases h
            · cases hinfo2
              exact absurd hcond2 hcond
  · intro info
    unfold setupProgressFile
    cases force with
    | true =>
      rw [if_pos rfl, hclean]
      constructor
      · intro hcontra
        cases hcontra
      · rintro ⟨h, -⟩
        cases h
    | false =>
      rw [if_neg (by simp)]
      cases hread : readProgressInfo stored with
      | panic => exact absurd hread hnp
      | err =>
        rw [hclean]
        constructor
        · intro hcontra
          cases hcontra
        · rintro ⟨-, h, -⟩
          cases h
      | ok info2 =>
        simp only
        by_cases hcond : L ≠ info2.Length ∨
            findSegmentCount L info2.SegmentSize ≠ (info2.segments.length : Int)
        · rw [if_pos hcond, hclean]
          constructor
          · intro hcontra
            cases hcontra
          · rintro ⟨-, h, hLen, hCount⟩
            cases h
            rcases hcond with h | h
            · exact absurd hLen h
            · exact absurd hCount h
        · rw [if_neg hcond]
          push_neg at hcond
          constructor
          · intro hok
            cases hok
            exact ⟨by trivial, by trivial, hcond.1, hcond.2⟩
          · rintro ⟨-, h, -, -⟩
            cases h
            rfl
  · intro g length0 segmentSize0 hmagic hdecode hS0 hcap
    rw [readProgressInfo_some, if_neg (by rw [hmagic]; simp), hdecode]
    simp [hS0, hcap]

/-- C4 counterexample: a stored file whose header deserializes to
SegmentSize = 0 makes readProgressInfo divide by zero, and a header summing
past the int64 range wraps to a negative count and panics at make; in both
cases setupProgressFile hits a runtime panic instead of falling back to a
clean start. -/
theorem c4_setup_clean_iff_cex :
    setupProgressFile (some (beginProgressFileBytes 1 0)) 1 defaultSegmentSize
      false = SetupResult.panic
    ∧ setupProgressFile (some (beginProgressFileBytes (2 ^ 63 - 1) 10)) 1
      defaultSegmentSize false = SetupResult.panic := by decide

/-- C4 witness: with no stored file, setup yields a clean start. -/
theorem c4_setup_clean_iff_witness :
    setupProgressFile none 5 defaultSegmentSize false =
      SetupResult.ok (freshInfo 5 defaultSegmentSize) true :=
  ((c4_setup_clean_iff none 5 defaultSegmentSize false (by decide) (by decide)
    (by decide) (by decide)).1).mpr (Or.inr (Or.inl rfl))

/-! ## Byte-level lemmas for the round trip of the resume state -/

theorem fileGet_out (f : List Nat) (off : Nat) (h : f.length ≤ off) :
    fileGet f off = 0 := by
  unfold fileGet
  rw [List.getD_eq_getElem?_getD, List.getElem?_eq_none h]
  rfl

theorem fileGet_writeByteAt_self (f : List Nat) (off b : Nat) :
    fileGet (writeByteAt f off b) off = b := by
  unfold fileGet writeByteAt
  split_ifs with hlt
  · rw [List.getD_eq_getElem?_getD, List.getElem?_set_self hlt]
    rfl
  · rw [List.getD_eq_getElem?_getD, List.append_assoc,
      List.getElem?_append_right (by omega)]
    rw [List.getElem?_append_right (by rw [List.length_replicate])]
    simp

theorem fileGet_writeByteAt_ne (f : List Nat) (off off2 b : Nat) (h : off2 ≠ off) :
    fileGet (writeByteAt f off b) off2 = fileGet f off2 := by
  unfold fileGet writeByteAt
  split_ifs with hlt
  · rw [List.getD_eq_getElem?_getD, List.getElem?_set_ne (fun he => h he.symm),
      List.getD_eq_getElem?_getD]
  · rcases lt_or_ge off2 f.length with h2 | h2
    · rw [List.getD_eq_getElem?_getD, List.append_assoc,
        List.getElem?_append_left h2, List.getD_eq_getElem?_getD]
    · rw [List.getD_eq_getElem?_getD, List.getD_eq_getElem?_getD,
        List.getElem?_eq_none h2, List.append_assoc,
        List.getElem?_append_right h2]
      rcases lt_or_ge (off2 - f.length) (off - f.length) with h3 | h3
      · rw [List.getElem?_append_left (by rw [List.length_replicate]; omega)]
        simp [List.getElem?_replicate, h3]
      · rw [List.getElem?_append_right (by rw [List.length_replicate]; omega)]
        rw [List.getElem?_eq_none (by simp [List.length_replicate]; omega)]

theorem writeByteAt_append (f0 t : List Nat) (off b : Nat) (h : f0.length ≤ off) :
    ∃ t2, writeByteAt (f0 ++ t) off b = f0 ++ t2 := by
  unfold writeByteAt
  split_ifs with hlt
  · refine ⟨t.set (off - f0.length) b, ?_⟩
    rw [List.set_append, if_neg (by omega)]
  · exact ⟨t ++ (List.replicate (off - (f0 ++ t).length) 0 ++ [b]),
      by rw [List.append_assoc, List.append_assoc]⟩

theorem applyMarks_append (marks : List Nat) : ∀ (f0 t : List Nat),
    f0.length ≤ baseOffset →
    ∃ t2, applyMarks (f0 ++ t) marks = f0 ++ t2 := by
  induction marks with
  | nil => exact fun f0 t _ => ⟨t, rfl⟩
  | cons m ms ih =>
    intro f0 t h
    obtain ⟨t1, ht1⟩ :=
      writeByteAt_append f0 t (baseOffset + m) finishedSegment (by omega)
    unfold applyMarks at ih ⊢
    simp only [List.foldl_cons]
    unfold markSegmentBytes
    rw [ht1]
    exact ih f0 t1 h

theorem fileGet_applyMarks (marks : List Nat) : ∀ (f : List Nat) (j : Nat),
    fileGet (applyMarks f marks) (baseOffset + j) =
      if marks.contains j then finishedSegment
      else fileGet f (baseOffset + j) := by
  induction marks with
  | nil =>
    intro f j
    simp [applyMarks]
  | cons m ms ih =>
    intro f j
    unfold applyMarks at ih ⊢
    simp only [List.foldl_cons]
    rw [ih (markSegmentBytes f m) j]
    unfold markSegmentBytes
    by_cases hj : j = m
    · subst hj
      rw [fileGet_writeByteAt_self, ite_self, List.contains_cons]
      simp
    · rw [fileGet_writeByteAt_ne _ _ _ _ (by omega : baseOffset + j ≠ baseOffset + m)]
      rw [List.contains_cons]
      have hbeq : (j == m) = false := by simp [hj]
      rw [hbeq]
      simp

/-- Unfolded success case of readProgressInfo, for rewriting. -/
theorem readProgressInfo_ok (f : List Nat) (L0 S0 : Int)
    (hmagic : f.take 4 = magic)
    (hdecode : gobDecodeHeader (f.drop 4) = some (L0, S0))
    (hS0 : S0 ≠ 0) (hcap : ¬ findSegmentCount L0 S0 > maxSegments)
    (hneg : ¬ findSegmentCount L0 S0 < 0) :
    readProgressInfo (some f) = ReadResult.ok ⟨L0, S0,
      (List.range (findSegmentCount L0 S0).toNat).map
        (fun i => fileGet f (baseOffset + i) == finishedSegment)⟩ := by
  rw [readProgressInfo_some, if_neg (by rw [hmagic]; simp), hdecode]
  simp [hS0, hcap, hneg]

/-! ## Claim C2: round trip of the resume state -/

/-- C2 (amended): for totalLength ≥ 0 and segmentSize > 0 in the int64 range
with totalLength + segmentSize ≤ 2^63 (no int64 overflow in the segment
count) and ceil(totalLength/segmentSize) within the 50000 cap, creating the
progress file and applying any sequence of done marks, then reading it back,
recovers exactly the same totalLength and segmentSize and a bitmap that is
true precisely at the marked indices. -/
theorem c2_resume_round_trip (L S : Int) (marks : List Nat)
    (hL : 0 ≤ L) (hS : 0 < S) (hS64 : S < 2 ^ 63)
    (hover : L + S ≤ 2 ^ 63)
    (hcap : findSegmentCount L S ≤ maxSegments) :
    readProgressInfo (some (applyMarks (beginProgressFileBytes L S) marks)) =
      ReadResult.ok ⟨L, S, (List.range (findSegmentCount L S).toNat).map
        (fun i => marks.contains i)⟩ := by
  obtain ⟨t2, ht2⟩ := applyMarks_append marks (beginProgressFileBytes L S) []
    (by rw [beginProgressFileBytes_length]; unfold baseOffset; omega)
  rw [List.append_nil] at ht2
  have hbit : ∀ j : Nat,
      fileGet (applyMarks (beginProgressFileBytes L S) marks) (baseOffset + j) =
        if marks.contains j then finishedSegment else 0 := by
    intro j
    rw [fileGet_applyMarks]
    rw [fileGet_out _ _
      (by rw [beginProgressFileBytes_length]; unfold baseOffset; omega)]
  have hmagic : (applyMarks (beginProgressFileBytes L S) marks).take 4 = magic := by
    rw [ht2]
    unfold beginProgressFileBytes
    rw [List.append_assoc, show (4 : Nat) = magic.length from rfl, List.take_left]
  have hdec2 : gobDecodeHeader
      ((applyMarks (beginProgressFileBytes L S) marks).drop 4) = some (L, S) := by
    rw [ht2]
    unfold beginProgressFileBytes
    rw [List.append_assoc, show (4 : Nat) = magic.length from rfl, List.drop_left]
    exact gobDecodeHeader_encode L S _ (by omega) (by omega) (by omega) hS64
  rw [readProgressInfo_ok _ L S hmagic hdec2 (by omega)
    (not_lt.mpr hcap) (not_lt.mpr (findSegmentCount_nonneg L S hL hS hover))]
  apply congrArg
  apply congrArg
  apply List.map_congr_left
  intro i _
  rw [hbit i]
  cases hcon : marks.contains i <;> simp [hcon, finishedSegment]

/-- C2 counterexample: the claim as stated fails without the segment-count
cap proviso; with totalLength 50001 and segmentSize 1 the freshly created
progress file does not read back at all (readProgressInfo rejects the over-cap
count with an error), so the round trip does not return the written state. -/
theorem c2_resume_round_trip_cex :
    readProgressInfo (some (applyMarks (beginProgressFileBytes 50001 1) [])) ≠
      ReadResult.ok ⟨50001, 1, List.replicate 50001 false⟩ := by
  have h : readProgressInfo (some (applyMarks (beginProgressFileBytes 50001 1) []))
      = ReadResult.err := by decide
  rw [h]
  intro hcontra
  cases hcontra

/-- C2 witness: length 7, segment size 3, segments 0 and 2 marked done. -/
theorem c2_resume_round_trip_witness :
    readProgressInfo (some (applyMarks (beginProgressFileBytes 7 3) [0, 2])) =
      ReadResult.ok ⟨7, 3, (List.range (findSegmentCount 7 3).toNat).map
        (fun i => [0, 2].contains i)⟩ :=
  c2_resume_round_trip 7 3 [0, 2] (by decide) (by decide) (by decide)
    (by decide) (by decide)

/-! ## Unfolding equations of the worker loop -/

theorem runWorker_nil_insts (outs : List Attempt) (down : Download) (e : Int) :
    runWorker [] outs true down e = [] := by
  conv_lhs => unfold runWorker

theorem runWorker_poison (d : Download) (rest : List Download)
    (outs : List Attempt) (down : Download) (e : Int) (h : d.size = 0) :
    runWorker (d :: rest) outs true down e = [] := by
  conv_lhs => unfold runWorker
  rw [if_pos h]

theorem runWorker_dequeue (d : Download) (rest : List Download)
    (outs : List Attempt) (down : Download) (e : Int) (h : d.size ≠ 0) :
    runWorker (d :: rest) outs true down e = runWorker rest outs false d e := by
  conv_lhs => unfold runWorker
  rw [if_neg h]

theorem runWorker_nil_outs (insts : List Download) (down : Download) (e : Int) :
    runWorker insts [] false down e = [] := by
  conv_lhs => unfold runWorker

theorem runWorker_fail_retry (insts : List Download) (a : Attempt)
    (as : List Attempt) (down : Download) (e : Int)
    (h : attemptFailed a.transportErr a.statusCode = true) (he : ¬ e + 1 > 3) :
    runWorker insts (a :: as) false down e =
      runWorker insts as false down (e + 1) := by
  conv_lhs => unfold runWorker
  rw [if_pos h, if_neg he]

theorem runWorker_fail_fatal (insts : List Download) (a : Attempt)
    (as : List Attempt) (down : Download) (e : Int)
    (h : attemptFailed a.transportErr a.statusCode = true) (he : e + 1 > 3) :
    runWorker insts (a :: as) false down e = [Event.fatalExit] := by
  conv_lhs => unfold runWorker
  rw [if_pos h, if_pos he]

theorem runWorker_success_done (insts : List Download) (a : Attempt)
    (as : List Attempt) (down : Download) (e : Int)
    (h : attemptFailed a.transportErr a.statusCode = false)
    (hdone : down.size ≤ (readChunks down.position down.size a.chunks 0).2) :
    runWorker insts (a :: as) false down e =
      (readChunks down.position down.size a.chunks 0).1 ++
        Event.progressWrite ((baseOffset : Int) + (down.segmentNum : Int))
          finishedSegment :: runWorker insts as true down 0 := by
  conv_lhs => unfold runWorker
  rw [if_neg (by simp [h]), if_pos hdone]

theorem runWorker_success_shrink (insts : List Download) (a : Attempt)
    (as : List Attempt) (down : Download) (e : Int)
    (h : attemptFailed a.transportErr a.statusCode = false)
    (hnot : ¬ down.size ≤ (readChunks down.position down.size a.chunks 0).2) :
    runWorker insts (a :: as) false down e =
      (readChunks down.position down.size a.chunks 0).1 ++
        runWorker insts as false
          ⟨down.position + (readChunks down.position down.size a.chunks 0).2,
           down.size - (readChunks down.position down.size a.chunks 0).2,
           down.segmentNum⟩ 0 := by
  conv_lhs => unfold runWorker
  rw [if_neg (by simp [h]), if_neg hnot]

/-! ## Claim C5: the bounded retry budget -/

/-- C5: a worker that dequeues a segment with a fresh consecutive-failure
counter and sees four failing attempts exits fatally at exactly the fourth
attempt, its whole observable trace being the fatal exit (no write, no done
mark for the segment); after only three failing attempts nothing fatal has
happened and no mark was written (the worker is still retrying); and a
successful attempt that completes the segment hands the loop back with the
counter reset to zero even right after three failures. -/
theorem c5_retry_budget (down : Download) (insts : List Download)
    (outs : List Attempt) (d0 : Download) (a1 a2 a3 a4 : Attempt)
    (hsz : down.size ≠ 0)
    (h1 : attemptFailed a1.transportErr a1.statusCode = true)
    (h2 : attemptFailed a2.transportErr a2.statusCode = true)
    (h3 : attemptFailed a3.transportErr a3.statusCode = true)
    (h4 : attemptFailed a4.transportErr a4.statusCode = true) :
    runWorker (down :: insts) (a1 :: a2 :: a3 :: a4 :: outs) true d0 0 =
      [Event.fatalExit]
    ∧ runWorker (down :: insts) [a1, a2, a3] true d0 0 = []
    ∧ (∀ (a : Attempt) (outs2 : List Attempt),
        attemptFailed a.transportErr a.statusCode = false →
        down.size ≤ (readChunks down.position down.size a.chunks 0).2 →
        runWorker (down :: insts) (a1 :: a2 :: a3 :: a :: outs2) true d0 0 =
          (readChunks down.position down.size a.chunks 0).1 ++
            Event.progressWrite ((baseOffset : Int) + (down.segmentNum : Int))
              finishedSegment :: runWorker insts outs2 true down 0) := by
  refine ⟨?_, ?_, ?_⟩
  · rw [runWorker_dequeue _ _ _ _ _ hsz,
      runWorker_fail_retry _ _ _ _ _ h1 (by omega),
      runWorker_fail_retry _ _ _ _ _ h2 (by omega),
      runWorker_fail_retry _ _ _ _ _ h3 (by omega),
      runWorker_fail_fatal _ _ _ _ _ h4 (by omega)]
  · rw [runWorker_dequeue _ _ _ _ _ hsz,
      runWorker_fail_retry _ _ _ _ _ h1 (by omega),
      runWorker_fail_retry _ _ _ _ _ h2 (by omega),
      runWorker_fail_retry _ _ _ _ _ h3 (by omega),
      runWorker_nil_outs]
  · intro a outs2 ha hdone
    rw [runWorker_dequeue _ _ _ _ _ hsz,
      runWorker_fail_retry _ _ _ _ _ h1 (by omega),
      runWorker_fail_retry _ _ _ _ _ h2 (by omega),
      runWorker_fail_retry _ _ _ _ _ h3 (by omega),
      runWorker_success_done _ _ _ _ _ ha hdone]

/-- C5 witness: a segment of five bytes against four transport errors. -/
theorem c5_retry_budget_witness :
    runWorker [Download.mk 0 5 2]
      [Attempt.mk true 0 [], Attempt.mk true 0 [], Attempt.mk true 0 [],
        Attempt.mk true 0 []] true (Download.mk 0 0 0) 0 = [Event.fatalExit] :=
  (c5_retry_budget (Download.mk 0 5 2) [] [] (Download.mk 0 0 0)
    (Attempt.mk true 0 []) (Attempt.mk true 0 []) (Attempt.mk true 0 [])
    (Attempt.mk true 0 []) (by decide) (by decide) (by decide) (by decide)
    (by decide)).1

/-! ## Claim C6: classification of a fetch attempt -/

/-- C6 (amended): an attempt counts as failed exactly when the transport
errored or the status code is neither 206 nor 200 (main.go accepts a plain
200 full-content response in addition to 206 partial content); on a failed
attempt within the budget the worker reads no bytes, writes nothing, keeps
the same work item, and increments the retry counter. -/
theorem c6_attempt_failure_classification :
    (∀ (transportErr : Bool) (statusCode : Int),
      attemptFailed transportErr statusCode = true ↔
        (transportErr = true ∨ (statusCode ≠ 206 ∧ statusCode ≠ 200)))
    ∧ (∀ (insts : List Download) (as : List Attempt) (a : Attempt)
        (down : Download) (e : Int),
        attemptFailed a.transportErr a.statusCode = true → e + 1 ≤ 3 →
        runWorker insts (a :: as) false down e =
          runWorker insts as false down (e + 1)) := by
  constructor
  · intro te sc
    unfold attemptFailed
    cases te <;> simp [bne_iff_ne]
  · intro insts as a down e h he
    exact runWorker_fail_retry _ _ _ _ _ h (by omega)

/-- C6 counterexample: the claim as frozen says anything other than a 206
partial-content response is a failed attempt, but main.go also accepts a 200
response with no transport error as a success. -/
theorem c6_attempt_failure_classification_cex :
    attemptFailed false 200 = false ∧ (200 : Int) ≠ 206 := by decide

/-- C6 witness: one failing attempt leaves the worker retrying the same item
with the counter bumped from 0 to 1. -/
theorem c6_attempt_failure_classification_witness :
    runWorker [] [Attempt.mk true 0 []] false (Download.mk 0 5 1) 0 =
      runWorker [] [] false (Download.mk 0 5 1) 1 :=
  (c6_attempt_failure_classification).2 [] [] (Attempt.mk true 0 [])
    (Download.mk 0 5 1) 0 (by decide) (by decide)

/-! ## Claim C7: partial completion shrinks the work item -/

/-- C7: when a good response ends cleanly after r1 bytes with r1 short of the
declared size, the worker keeps the same instruction list (no new work item is
consumed), retries with the offset advanced by r1 and the length reduced by
r1, and the counter not incremented (it is reset to zero); if the retry then
delivers all remaining bytes, the worker emits exactly the same done mark as a
single-attempt completion and returns to the instruction queue. -/
theorem c7_partial_completion (insts : List Download) (outs : List Attempt)
    (down : Download) (e : Int) (a : Attempt) (evs1 : List Event) (r1 : Int)
    (ha : attemptFailed a.transportErr a.statusCode = false)
    (hrc : readChunks down.position down.size a.chunks 0 = (evs1, r1))
    (hpart : r1 < down.size) :
    runWorker insts (a :: outs) false down e =
      evs1 ++ runWorker insts outs false
        ⟨down.position + r1, down.size - r1, down.segmentNum⟩ 0
    ∧ (∀ (a2 : Attempt) (outs2 : List Attempt) (evs2 : List Event) (r2 : Int),
        attemptFailed a2.transportErr a2.statusCode = false →
        readChunks (down.position + r1) (down.size - r1) a2.chunks 0 = (evs2, r2) →
        down.size - r1 ≤ r2 →
        runWorker insts (a :: a2 :: outs2) false down e =
          evs1 ++ evs2 ++
            Event.progressWrite ((baseOffset : Int) + (down.segmentNum : Int))
              finishedSegment ::
            runWorker insts outs2 true
              ⟨down.position + r1, down.size - r1, down.segmentNum⟩ 0) := by
  have hstep : ∀ outs3 : List Attempt,
      runWorker insts (a :: outs3) false down e =
        evs1 ++ runWorker insts outs3 false
          ⟨down.position + r1, down.size - r1, down.segmentNum⟩ 0 := by
    intro outs3
    rw [runWorker_success_shrink _ _ _ _ _ ha (by rw [hrc]; simp; omega), hrc]
  refine ⟨hstep outs, ?_⟩
  intro a2 outs2 evs2 r2 ha2 hrc2 hdone2
  rw [hstep (a2 :: outs2)]
  rw [runWorker_success_done _ _ _ _ _ ha2 (by simp only; rw [hrc2]; exact hdone2)]
  simp only
  rw [hrc2, List.append_assoc]

/-- C7 witness: a ten-byte segment delivered four bytes then six bytes. -/
theorem c7_partial_completion_witness :
    runWorker [] [Attempt.mk false 206 [4]] false (Download.mk 0 10 7) 0 =
      [Event.write 0 4] ++ runWorker [] [] false (Download.mk 4 6 7) 0 :=
  (c7_partial_completion [] [] (Download.mk 0 10 7) 0 (Attempt.mk false 206 [4])
    [Event.write 0 4] 4 (by decide) (by decide) (by decide)).1

/-! ## Claim C3: a done mark happens at most once and only after full coverage -/

/-- Whether an event is the progress-file done mark of segment s. -/
def isMark (s : Nat) : Event → Bool
  | .progressWrite off _ => off == (baseOffset : Int) + (s : Int)
  | _ => false

/-- Whether an event is an output-file write covering absolute offset o. -/
def isWriteHit (o : Int) : Event → Prop
  | .write off len => off ≤ o ∧ o < off + (len : Int)
  | _ => False

/-- Every byte of [lo, hi) is covered by some write event of the list. -/
def writesCover (evs : List Event) (lo hi : Int) : Prop :=
  ∀ o : Int, lo ≤ o → o < hi → ∃ ev ∈ evs, isWriteHit o ev

theorem writesCover_subset {evs evs2 : List Event}
    (hsub : ∀ ev ∈ evs, ev ∈ evs2) {lo hi : Int}
    (hc : writesCover evs lo hi) : writesCover evs2 lo hi := by
  intro o h1 h2
  obtain ⟨ev, hmem, hhit⟩ := hc o h1 h2
  exact ⟨ev, hsub ev hmem, hhit⟩

theorem readChunks_writes : ∀ (cs : List Nat) (pos size r0 : Int) (ev : Event),
    ev ∈ (readChunks pos size cs r0).1 → ∃ off len, ev = Event.write off len := by
  intro cs
  induction cs with
  | nil =>
    intro pos size r0 ev hmem
    simp [readChunks] at hmem
  | cons c cs ih =>
    intro pos size r0 ev hmem
    unfold readChunks at hmem
    split_ifs at hmem with hr
    · rcases List.mem_cons.mp hmem with h | h
      · exact ⟨pos + r0, c, h⟩
      · exact ih pos size (r0 + c) ev h
    · simp at hmem

theorem readChunks_le_covers : ∀ (cs : List Nat) (pos size r0 : Int),
    r0 ≤ (readChunks pos size cs r0).2 ∧
    writesCover (readChunks pos size cs r0).1 (pos + r0)
      (pos + (readChunks pos size cs r0).2) := by
  intro cs
  induction cs with
  | nil =>
    intro pos size r0
    refine ⟨le_refl _, ?_⟩
    intro o h1 h2
    simp [readChunks] at h1 h2
    omega
  | cons c cs ih =>
    intro pos size r0
    unfold readChunks
    split_ifs with hr
    · obtain ⟨hle, hcov⟩ := ih pos size (r0 + c)
      constructor
      · simp only
        omega
      · intro o h1 h2
        simp only at h1 h2 ⊢
        rcases lt_or_ge o (pos + r0 + (c : Int)) with ho | ho
        · refine ⟨Event.write (pos + r0) c, List.mem_cons_self _ _, ?_⟩
          unfold isWriteHit
          omega
        · obtain ⟨ev, hmem, hhit⟩ := hcov o (by omega) (by omega)
          exact ⟨ev, List.mem_cons_of_mem _ hmem, hhit⟩
    · refine ⟨le_refl _, ?_⟩
      intro o h1 h2
      simp only at h1 h2
      omega

theorem filter_isMark_readChunks (s : Nat) (cs : List Nat) (pos size r0 : Int) :
    ((readChunks pos size cs r0).1).filter (isMark s) = [] := by
  rw [List.filter_eq_nil_iff]
  intro ev hmem
  obtain ⟨off, len, rfl⟩ := readChunks_writes cs pos size r0 ev hmem
  simp [isMark]

theorem isMark_elim {s : Nat} {ev : Event} (h : isMark s ev = true) :
    ∃ v, ev = Event.progressWrite ((baseOffset : Int) + (s : Int)) v := by
  cases ev with
  | progressWrite off v =>
    refine ⟨v, ?_⟩
    unfold isMark at h
    rw [beq_iff_eq] at h
    rw [h]
  | write off len => simp [isMark] at h
  | fatalExit => simp [isMark] at h

theorem append_cons_split {α : Type} {l1 l2 pre post : List α} {x : α}
    (h : l1 ++ l2 = pre ++ x :: post) :
    (∃ mid, pre = l1 ++ mid ∧ l2 = mid ++ x :: post) ∨ x ∈ l1 := by
  rcases List.append_eq_append_iff.mp h with ⟨a2, ha, hb⟩ | ⟨c2, hc, hd⟩
  · exact Or.inl ⟨a2, ha, hb⟩
  · cases c2 with
    | nil =>
      rw [List.append_nil] at hc
      rw [List.nil_append] at hd
      exact Or.inl ⟨[], by rw [hc, List.append_nil], by rw [List.nil_append]; exact hd.symm⟩
    | cons y c2t =>
      simp only [List.cons_append] at hd
      have hx : x = y := by injection hd
      subst hx
      refine Or.inr ?_
      rw [hc]
      exact List.mem_append_right _ (List.mem_cons_self _ _)

/-- The three trace conclusions of the worker mark invariant, for a call with
the given arguments and trace T. -/
def MarkInv (insts : List Download) (fin : Bool) (down : Download)
    (T : List Event) : Prop :=
  (∀ s : Nat, (T.filter (isMark s)).length ≤ 1)
  ∧ (∀ (off : Int) (v : Nat),
      Event.progressWrite off v ∈ T → v = finishedSegment)
  ∧ (∀ (s : Nat) (pre post : List Event) (v : Nat),
      T = pre ++ Event.progressWrite ((baseOffset : Int) + (s : Int)) v :: post →
      ((fin = false ∧ s = down.segmentNum ∧
          writesCover pre down.position (down.position + down.size))
        ∨ ∃ d ∈ insts, d.size ≠ 0 ∧ d.segmentNum = s ∧
            writesCover pre d.position (d.position + d.size)))

theorem markInv_nil (insts : List Download) (fin : Bool) (down : Download) :
    MarkInv insts fin down [] := by
  refine ⟨fun s => by simp, fun off v h => absurd h (by simp), ?_⟩
  intro s pre post v h
  have hlen := congrArg List.length h
  simp at hlen
  omega

theorem runWorker_mark_invariant : ∀ (n : Nat) (insts : List Download)
    (outs : List Attempt) (fin : Bool) (down : Download) (e : Int),
    outs.length + insts.length ≤ n →
    insts.Pairwise (fun d1 d2 => d1.size ≠ 0 → d2.size ≠ 0 →
      d1.segmentNum ≠ d2.segmentNum) →
    (fin = false → ∀ d ∈ insts, d.size ≠ 0 → d.segmentNum ≠ down.segmentNum) →
    MarkInv insts fin down (runWorker insts outs fin down e) := by
  intro n
  induction n with
  | zero =>
    intro insts outs fin down e hn hdist hcur
    have houts : outs = [] := by
      cases outs with
      | nil => rfl
      | cons a as => simp at hn
    have hinsts : insts = [] := by
      cases insts with
      | nil => rfl
      | cons d rest => simp at hn
    subst houts hinsts
    cases fin with
    | true => rw [runWorker_nil_insts]; exact markInv_nil _ _ _
    | false => rw [runWorker_nil_outs]; exact markInv_nil _ _ _
  | succ n ihn =>
    intro insts outs fin down e hn hdist hcur
    cases fin with
    | true =>
      cases insts with
      | nil => rw [runWorker_nil_insts]; exact markInv_nil _ _ _
      | cons d rest =>
        by_cases hd : d.size = 0
        · rw [runWorker_poison d rest outs down e hd]; exact markInv_nil _ _ _
        · rw [runWorker_dequeue d rest outs down e hd]
          have hdist2 := (List.pairwise_cons.mp hdist).2
          have hhead := (List.pairwise_cons.mp hdist).1
          have hcur2 : false = false → ∀ d2 ∈ rest, d2.size ≠ 0 →
              d2.segmentNum ≠ d.segmentNum := by
            intro _ d2 hmem hsz2 heq
            exact (hhead d2 hmem hd hsz2) heq.symm
          obtain ⟨ih1, ih2, ih3⟩ := ihn rest outs false d e
            (by simp at hn ⊢; omega) hdist2 hcur2
          refine ⟨ih1, ih2, ?_⟩
          intro s pre post v hsplit
          rcases ih3 s pre post v hsplit with ⟨-, hseq, hcov⟩ |
            ⟨d2, hmem, hsz2, hseg2, hcov⟩
          · exact Or.inr ⟨d, List.mem_cons_self _ _, hd, hseq.symm, hcov⟩
          · exact Or.inr ⟨d2, List.mem_cons_of_mem _ hmem, hsz2, hseg2, hcov⟩
    | false =>
      cases outs with
      | nil => rw [runWorker_nil_outs]; exact markInv_nil _ _ _
      | cons a as =>
        by_cases hfail : attemptFailed a.transportErr a.statusCode = true
        · by_cases hcnt : e + 1 > 3
          · rw [runWorker_fail_fatal insts a as down e hfail hcnt]
            refine ⟨fun s => by simp [isMark, List.filter], ?_, ?_⟩
            · intro off v hmem
              simp at hmem
            · intro s pre post v hsplit
              have hm : Event.progressWrite ((baseOffset : Int) + (s : Int)) v ∈
                  ([Event.fatalExit] : List Event) := by
                rw [hsplit]
                exact List.mem_append_right _ (List.mem_cons_self _ _)
              simp at hm
          · rw [runWorker_fail_retry insts a as down e hfail hcnt]
            exact ihn insts as false down (e + 1)
              (by simp at hn ⊢; omega) hdist hcur
        · have hfail2 : attemptFailed a.transportErr a.statusCode = false := by
            cases h2 : attemptFailed a.transportErr a.statusCode
            · rfl
            · exact absurd h2 hfail
          have hevsW := readChunks_writes a.chunks down.position down.size 0
          have hevsC := readChunks_le_covers a.chunks down.position down.size 0
          by_cases hdone : down.size ≤
              (readChunks down.position down.size a.chunks 0).2
          · -- the attempt completes the segment: mark, then back to the queue
            rw [runWorker_success_done insts a as down e hfail2 hdone]
            obtain ⟨ih1, ih2, ih3⟩ := ihn insts as true down 0
              (by simp at hn ⊢; omega) hdist (fun h => absurd h (by decide))
            have hT2nomark : ∀ ev ∈ runWorker insts as true down 0,
                ¬ isMark down.segmentNum ev = true := by
              intro ev hmem hmark
              obtain ⟨v, rfl⟩ := isMark_elim hmark
              obtain ⟨pre2, post2, hsplit2⟩ := List.append_of_mem hmem
              rcases ih3 down.segmentNum pre2 post2 v hsplit2 with ⟨hff, -, -⟩ |
                ⟨d2, hmem2, hsz2, hseg2, -⟩
              · cases hff
              · exact (hcur rfl d2 hmem2 hsz2) hseg2
            refine ⟨?_, ?_, ?_⟩
            · intro s
              rw [List.filter_append, filter_isMark_readChunks, List.filter_cons]
              by_cases hs : s = down.segmentNum
              · rw [if_pos (by simp [isMark, hs])]
                have hzero : (runWorker insts as true down 0).filter (isMark s)
                    = [] := by
                  apply List.filter_eq_nil_iff.mpr
                  intro ev hmem hmark
                  exact hT2nomark ev hmem (by rwa [hs] at hmark)
                rw [hzero]
                simp
              · rw [if_neg (by
                  simp only [isMark, beq_iff_eq]
                  intro hcontra
                  exact hs (by omega))]
                rw [List.nil_append]
                exact ih1 s
            · intro off v hmem
              rcases List.mem_append.mp hmem with h | h
              · obtain ⟨off2, len2, heq⟩ := hevsW _ h
                simp at heq
              · rcases List.mem_cons.mp h with h2 | h2
                · injection h2 with h3 h4
                · exact ih2 off v h2
            · intro s pre post v hsplit
              rcases append_cons_split hsplit with ⟨mid, hpre, hmid⟩ | hbad
              · cases mid with
                | nil =>
                  rw [List.nil_append] at hmid
                  have hpw := List.head_eq_of_cons_eq hmid
                  have hT2 := List.tail_eq_of_cons_eq hmid
                  injection hpw with hpwoff hpwv
                  refine Or.inl ⟨rfl, by omega, ?_⟩
                  rw [hpre, List.append_nil]
                  intro o h1 h2
                  have := hevsC.2 o (by omega) (by omega)
                  exact this
                | cons x midt =>
                  have hT2 := List.tail_eq_of_cons_eq hmid
                  rcases ih3 s midt post v hT2 with ⟨hff, -, -⟩ |
                    ⟨d2, hmem2, hsz2, hseg2, hcov2⟩
                  · cases hff
                  · refine Or.inr ⟨d2, hmem2, hsz2, hseg2,
                      writesCover_subset ?_ hcov2⟩
                    intro ev hmem3
                    rw [hpre]
                    exact List.mem_append_right _ (List.mem_cons_of_mem _ hmem3)
              · obtain ⟨off2, len2, heq⟩ := hevsW _ hbad
                simp at heq
          · -- partial completion: shrink the work item and keep going
            rw [runWorker_success_shrink insts a as down e hfail2 hdone]
            obtain ⟨ih1, ih2, ih3⟩ := ihn insts as false
              ⟨down.position + (readChunks down.position down.size a.chunks 0).2,
               down.size - (readChunks down.position down.size a.chunks 0).2,
               down.segmentNum⟩ 0
              (by simp at hn ⊢; omega) hdist
              (fun _ d2 hmem hsz2 => hcur rfl d2 hmem hsz2)
            refine ⟨?_, ?_, ?_⟩
            · intro s
              rw [List.filter_append, filter_isMark_readChunks, List.nil_append]
              exact ih1 s
            · intro off v hmem
              rcases List.mem_append.mp hmem with h | h
              · obtain ⟨off2, len2, heq⟩ := hevsW _ h
                simp at heq
              · exact ih2 off v h
            · intro s pre post v hsplit
              rcases append_cons_split hsplit with ⟨mid, hpre, hmid⟩ | hbad
              · rcases ih3 s mid post v hmid with ⟨-, hseq, hcov⟩ |
                  ⟨d2, hmem2, hsz2, hseg2, hcov2⟩
                · refine Or.inl ⟨rfl, hseq, ?_⟩
                  intro o h1 h2
                  rcases lt_or_ge o (down.position +
                      (readChunks down.position down.size a.chunks 0).2) with ho | ho
                  · obtain ⟨ev, hmem3, hhit⟩ := hevsC.2 o (by omega) (by omega)
                    refine ⟨ev, ?_, hhit⟩
                    rw [hpre]
                    exact List.mem_append_left _ hmem3
                  · obtain ⟨ev, hmem3, hhit⟩ := hcov o (by simp only; omega)
                      (by simp only at h2 ⊢; omega)
                    refine ⟨ev, ?_, hhit⟩
                    rw [hpre]
                    exact List.mem_append_right _ hmem3
                · refine Or.inr ⟨d2, hmem2, hsz2, hseg2,
                    writesCover_subset ?_ hcov2⟩
                  intro ev hmem3
                  rw [hpre]
                  exact List.mem_append_right _ hmem3
              · obtain ⟨off2, len2, heq⟩ := hevsW _ hbad
                simp at heq

/-- C3: in any worker run over instructions with pairwise distinct segment
numbers (as the supervisor enqueues, poison items aside), the done entry of a
segment is written at most once; every progress-file write carries the done
marker 0x59, so no operation ever writes a segment back to pending; and a
done mark for segment s can only appear after write events that cover every
byte of the range of the instruction for s, that is, only once the bytes read
reach the declared size, after all chunk writes. Together with the completion
equations of C7, the entry therefore flips false to true exactly once, at
full coverage, and is never reverted. -/
theorem c3_segment_done_marks (insts : List Download) (outs : List Attempt)
    (d0 : Download)
    (hdist : insts.Pairwise (fun d1 d2 => d1.size ≠ 0 → d2.size ≠ 0 →
      d1.segmentNum ≠ d2.segmentNum)) :
    (∀ s : Nat,
      ((runWorker insts outs true d0 0).filter (isMark s)).length ≤ 1)
    ∧ (∀ (off : Int) (v : Nat),
        Event.progressWrite off v ∈ runWorker insts outs true d0 0 →
        v = finishedSegment)
    ∧ (∀ (s : Nat) (pre post : List Event) (v : Nat),
        runWorker insts outs true d0 0 =
          pre ++ Event.progressWrite ((baseOffset : Int) + (s : Int)) v :: post →
        ∃ d ∈ insts, d.size ≠ 0 ∧ d.segmentNum = s ∧
          writesCover pre d.position (d.position + d.size)) := by
  obtain ⟨h1, h2, h3⟩ := runWorker_mark_invariant (outs.length + insts.length)
    insts outs true d0 0 (le_refl _) hdist (fun h => absurd h (by decide))
  refine ⟨h1, h2, ?_⟩
  intro s pre post v hsplit
  rcases h3 s pre post v hsplit with ⟨hff, -, -⟩ | hex
  · cases hff
  · exact hex

/-- C3 witness: a two-item queue (one real segment, one poison) against one
completing attempt marks segment 0 at most once. -/
theorem c3_segment_done_marks_witness :
    ((runWorker [Download.mk 0 3 0, Download.mk 3 0 0]
      [Attempt.mk false 206 [3]] true (Download.mk 0 0 0) 0).filter
        (isMark 0)).length ≤ 1 :=
  (c3_segment_done_marks [Download.mk 0 3 0, Download.mk 3 0 0]
    [Attempt.mk false 206 [3]] (Download.mk 0 0 0) (by decide)).1 0

end Multidown
